import Mathlib

/-!
Verification of the detention-dashboard data pipeline.

This file gives a shallow embedding of the data model and the operations of
src/detention_dashboard_app.py: the loader's URL handling, the two
normalizers (prepare_detentions, prepare_oncall) and the aggregation logic
of the two dashboard renderers, together with theorems settling the
specification claims about them.

Dataframes are embedded as a list of column names plus a list of rows of
cells; a cell is a missing value, a string, or a parsed timestamp.  The
pandas operations used by the source are modelled explicitly: column lookup
by name raises KeyError when the name is absent (modelled with Except),
rename returns a fresh table, to_datetime with lenient coercion maps
unparseable values to null, groupby drops null keys and sorts group keys
ascending, and the "count" aggregation counts non-null cells.
-/

set_option maxRecDepth 10000

/-- Cell of a dataframe: a missing value, a string, or a parsed timestamp.
A timestamp carries a calendar-date key (encoded (year*100+month)*100+day)
plus the seconds elapsed within that day. -/
inductive Cell where
  | na : Cell
  | str : String → Cell
  | date : Nat → Nat → Cell
  deriving DecidableEq

/-- True exactly on the missing value. -/
def Cell.isNa : Cell → Bool
  | Cell.na => true
  | _ => false

/-- Dataframe: ordered column names and rows of cells.  Tables produced by
read_csv / read_excel are rectangular with pairwise distinct column names;
the theorems add these facts as hypotheses where they matter. -/
structure Table where
  cols : List String
  rows : List (List Cell)
  deriving DecidableEq

/-- Cell of a row at a column index; a position beyond the row reads as
missing, matching how a short row presents to pandas. -/
def cellAt (r : List Cell) (i : Nat) : Cell :=
  r.getD i Cell.na

/-- Index of the first column with the given name, as pandas column lookup
resolves a label. -/
def idxOf? (l : List String) (c : String) : Option Nat :=
  match l with
  | [] => Option.none
  | b :: bs => if b = c then some 0 else (idxOf? bs c).map (fun n => n + 1)

/-- Does the pattern (first argument) start the list (second argument)? -/
def startsWithL : List Char → List Char → Bool
  | [], _ => true
  | _ :: _, [] => false
  | a :: p, b :: h => a == b && startsWithL p h

/-- Does the pattern (first argument) occur inside the list (second
argument)?  Mirrors the Python substring test. -/
def containsSubL : List Char → List Char → Bool
  | p, [] => startsWithL p []
  | p, c :: t => startsWithL p (c :: t) || containsSubL p t

/-- Substring test on strings: does pat occur in s? -/
def strContainsS (s pat : String) : Bool :=
  containsSubL pat.data s.data

/-- ASCII lower-casing, modelling Python str.lower for the column names and
cell values the app works with. -/
def lowerStr (s : String) : String :=
  String.mk (s.data.map Char.toLower)

/-- Whitespace stripped by Python str.strip. -/
def isStripWs (c : Char) : Bool :=
  c == ' ' || c == '\t' || c == '\n' || c == '\r'

/-- Python str.strip on the character list. -/
def stripChars (l : List Char) : List Char :=
  ((l.dropWhile isStripWs).reverse.dropWhile isStripWs).reverse

/-- Python str.strip. -/
def stripStr (s : String) : String :=
  String.mk (stripChars s.data)

/-- String representation taken by astype(str): a missing value prints as
the string nan; a timestamp prints as its numeric key (digits, a space and
a colon only, which is all the verified properties need of it). -/
def astypeStr : Cell → String
  | Cell.na => "nan"
  | Cell.str s => s
  | Cell.date d s => String.mk ((Nat.toDigits 10 d) ++ ' ' :: ':' :: Nat.toDigits 10 s)

/-- Digit pair to a number. -/
def d2 (a b : Char) : Option Nat :=
  if a.isDigit && b.isDigit then some ((a.toNat - 48) * 10 + (b.toNat - 48)) else Option.none

/-- Four digits to a number. -/
def d4 (a b c e : Char) : Option Nat :=
  if a.isDigit && b.isDigit && c.isDigit && e.isDigit then
    some (((a.toNat - 48) * 10 + (b.toNat - 48)) * 100 + ((c.toNat - 48) * 10 + (e.toNat - 48)))
  else Option.none

/-- Modelled from the spec: pandas.to_datetime is an external library
routine, not code of this repository; its lenient value parsing is
modelled as an ISO-8601 date / date-time parser returning the date key and
the seconds within the day.  The verified claims depend only on its
coercing interface: a value it cannot parse yields none. -/
def parseDate (s : String) : Option (Nat × Nat) :=
  match s.data with
  | [y1, y2, y3, y4, '-', m1, m2, '-', a1, a2] => do
    let y ← d4 y1 y2 y3 y4
    let m ← d2 m1 m2
    let d ← d2 a1 a2
    if 1 ≤ m && m ≤ 12 && 1 ≤ d && d ≤ 31 then some ((y * 100 + m) * 100 + d, 0)
    else Option.none
  | [y1, y2, y3, y4, '-', m1, m2, '-', a1, a2, ' ', h1, h2, ':', n1, n2, ':', s1, s2] => do
    let y ← d4 y1 y2 y3 y4
    let m ← d2 m1 m2
    let d ← d2 a1 a2
    let h ← d2 h1 h2
    let n ← d2 n1 n2
    let sc ← d2 s1 s2
    if 1 ≤ m && m ≤ 12 && 1 ≤ d && d ≤ 31 && h ≤ 23 && n ≤ 59 && sc ≤ 59 then
      some ((y * 100 + m) * 100 + d, (h * 60 + n) * 60 + sc)
    else Option.none
  | _ => Option.none

/-- to_datetime with errors coerce applied to one cell: missing stays
missing, an unparseable string becomes missing, a parseable string becomes
a timestamp, an already-parsed timestamp is kept. -/
def dateCoerce : Cell → Cell
  | Cell.na => Cell.na
  | Cell.str s =>
    match parseDate s with
    | some (d, sec) => Cell.date d sec
    | Option.none => Cell.na
  | Cell.date d s => Cell.date d s

/-- pandas DataFrame.rename on the column axis: every column name that is a
key of the mapping is replaced by its image, all others stay; a fresh table
is returned. -/
def applyRename (m : List (String × String)) (t : Table) : Table :=
  { t with cols := t.cols.map (fun c => (m.lookup c).getD c) }

/-- The in-place column strip of prepare_detentions (df.columns assignment). -/
def stripColsT (t : Table) : Table :=
  { t with cols := t.cols.map stripStr }

/-- Rename table of prepare_detentions (identity spellings plus the
Reg. Form correction), copied from the source. -/
def detRenameMap : List (String × String) :=
  [("Student", "Student"),
   ("Year", "Year"),
   ("Reg. Form", "Reg Form"),
   ("House", "House"),
   ("Reason", "Reason"),
   ("Detention Type", "Detention Type"),
   ("Issued Date", "Issued Date"),
   ("Issued By", "Issued By"),
   ("Detention Date", "Detention Date"),
   ("Detention Attendance", "Detention Attendance")]

/-- Rename table of prepare_oncall, copied from the source. -/
def oncallRenameMap : List (String × String) :=
  [("Date/Time", "DateTime"),
   ("Reported by", "Reported By"),
   ("Location", "Location"),
   ("Comments", "Comments"),
   ("Type", "Type"),
   ("Students involved", "Students"),
   ("Event", "Event"),
   ("Assigned to", "Assigned To"),
   ("Status", "Status")]

/-- Attendance fallback of prepare_detentions: when no column is named
Detention Attendance, the first column whose lowered name contains the
substring attendance is renamed to it. -/
def attendanceFallback (t : Table) : Table :=
  if t.cols.contains "Detention Attendance" then t
  else
    match t.cols.find? (fun c => strContainsS (lowerStr c) "attendance") with
    | some c => applyRename [(c, "Detention Attendance")] t
    | Option.none => t

/-- Replace the cells of the first column with the given name by their
image under f (the column assignment df colname = f applied to it).  A row
too short to reach the column is left as it is, which reads back as the
missing value either way. -/
def mapColCells (t : Table) (c : String) (f : Cell → Cell) : Table :=
  match idxOf? t.cols c with
  | some i => { t with rows := t.rows.map (fun r => r.set i (f (cellAt r i))) }
  | Option.none => t

/-- Apply to_datetime coercion to each listed column that is present. -/
def parseDateCols (cs : List String) (t : Table) : Table :=
  cs.foldl (fun acc c => if acc.cols.contains c then mapColCells acc c dateCoerce else acc) t

/-- Stage of prepare_detentions before date parsing: strip column names,
apply the rename table, apply the attendance fallback. -/
def detRenamed (t : Table) : Table :=
  attendanceFallback (applyRename detRenameMap (stripColsT t))

/-- Value returned by prepare_detentions. -/
def prepareDetentionsResult (t : Table) : Table :=
  parseDateCols ["Issued Date", "Detention Date"] (detRenamed t)

/-- prepare_detentions together with its effect on the argument: the
df.columns assignment strips the column names of the caller's table in
place; every later step works on fresh tables returned by rename.  The
first component is the returned table, the second the state of the input
table after the call. -/
def prepareDetentionsFull (t : Table) : Table × Table :=
  (prepareDetentionsResult t, stripColsT t)

/-- Stage of prepare_oncall before date parsing. -/
def oncallRenamed (t : Table) : Table :=
  applyRename oncallRenameMap t

/-- Value returned by prepare_oncall. -/
def prepareOncallResult (t : Table) : Table :=
  parseDateCols ["DateTime"] (oncallRenamed t)

/-- prepare_oncall together with its effect on the argument: rename returns
a fresh table and the date assignment happens on that fresh table, so the
input is left untouched. -/
def prepareOncallFull (t : Table) : Table × Table :=
  (prepareOncallResult t, t)

/-- The three characters of the Google Sheets document-id separator. -/
def sepDChars : List Char :=
  ['/', 'd', '/']

/-- Suffix of the list after the first occurrence of the pattern, none when
the pattern does not occur.  Models the Python expression
url.split(sep) index 1 composed with split on slash index 0: the chunk
between the first and second occurrence of sep, cut at its first slash,
equals the suffix after the first occurrence cut at its first slash,
because sep itself begins with a slash. -/
def afterFirst (p : List Char) : List Char → Option (List Char)
  | [] => Option.none
  | c :: t => if startsWithL p (c :: t) then some ((c :: t).drop p.length) else afterFirst p t

/-- Google Sheets rewrite of load_data_from_url: when the URL contains both
docs.google.com and /edit, the document id between the first /d/ and the
next slash is extracted and the URL replaced by the CSV export endpoint;
when the id cannot be extracted (the Python IndexError is swallowed) or the
pattern is absent, the URL is kept. -/
def rewriteGoogle (url : String) : String :=
  if strContainsS url "docs.google.com" && strContainsS url "/edit" then
    match afterFirst sepDChars url.data with
    | some rest =>
      "https://docs.google.com/spreadsheets/d/"
        ++ String.mk (rest.takeWhile (fun c => c != '/'))
        ++ "/export?format=csv"
    | Option.none => url
  else url

/-- URL actually fetched by load_data_from_url: the input is stripped, then
the Google Sheets rewrite is applied. -/
def loadUrlTarget (url : String) : String :=
  rewriteGoogle (stripStr url)

/-- Source selected by main for one dataset in one cycle. -/
inductive LoadChoice where
  | fromFile : String → LoadChoice
  | fromUrl : String → LoadChoice
  | noSource : LoadChoice
  deriving DecidableEq

/-- The input selection of main: a dataset loads from the uploaded file
when one is present, otherwise from the link when it is a truthy (non
empty) string, otherwise not at all. -/
def chooseSource (uploaded : Option String) (link : String) : LoadChoice :=
  match uploaded with
  | some f => LoadChoice.fromFile f
  | Option.none => if link = "" then LoadChoice.noSource else LoadChoice.fromUrl link

/-- The loose attendance test of the headline metric: astype(str) followed
by a case-insensitive substring test for Present. -/
def looseCell (c : Cell) : Bool :=
  strContainsS (lowerStr (astypeStr c)) "present"

/-- Stated from the spec, for comparison with the code: an attendance value
counts as present when it is a string that case-insensitively contains
present. -/
def strLoose : Cell → Bool
  | Cell.str s => strContainsS (lowerStr s) "present"
  | _ => false

/-- The exact attendance test of the per-group breakdowns: equality with
the string Present. -/
def exactCell (c : Cell) : Bool :=
  c == Cell.str "Present"

/-- Headline summary of the detentions dashboard. -/
structure DetSummary where
  total : Nat
  attended : Nat
  rate : Rat
  deriving DecidableEq

/-- Headline metrics of render_detentions_dashboard: row count, loose
present count over the attendance column (zero when the column is absent),
and the attended over total ratio with the zero-total guard. -/
def detSummaryOf (t : Table) : DetSummary :=
  let total := t.rows.length
  let attended :=
    match idxOf? t.cols "Detention Attendance" with
    | some i => (t.rows.filter (fun r => looseCell (cellAt r i))).length
    | Option.none => 0
  { total := total
    attended := attended
    rate := if total = 0 then 0 else (attended : Rat) / (total : Rat) }

/-- Ordering on cells used to model the ascending sort of pandas group
keys: missing first, then strings lexicographically, then timestamps
chronologically. -/
def cellLE : Cell → Cell → Bool
  | Cell.na, _ => true
  | Cell.str _, Cell.na => false
  | Cell.str a, Cell.str b => decide (a.data ≤ b.data)
  | Cell.str _, Cell.date _ _ => true
  | Cell.date _ _, Cell.na => false
  | Cell.date _ _, Cell.str _ => false
  | Cell.date d1 s1, Cell.date d2 s2 => decide (d1 < d2) || (d1 == d2 && decide (s1 ≤ s2))

/-- Insertion into a sorted list of cells. -/
def insertCell (a : Cell) : List Cell → List Cell
  | [] => [a]
  | b :: l => if cellLE a b then a :: b :: l else b :: insertCell a l

/-- Insertion sort on cells, the model of the ascending key sort of
groupby. -/
def sortCells : List Cell → List Cell
  | [] => []
  | a :: l => insertCell a (sortCells l)

/-- Is the list sorted for cellLE? -/
def sortedB : List Cell → Bool
  | [] => true
  | [_] => true
  | a :: b :: l => cellLE a b && sortedB (b :: l)

/-- Values of the column with the given index, one per row. -/
def keyCells (t : Table) (ki : Nat) : List Cell :=
  t.rows.map (fun r => cellAt r ki)

/-- Group keys of groupby on the column with index ki: the distinct
non-null values, sorted ascending (pandas groupby default dropna and
sort). -/
def groupKeys (t : Table) (ki : Nat) : List Cell :=
  sortCells ((keyCells t ki).filter (fun c => !c.isNa)).dedup

/-- One row of a grouped detentions breakdown. -/
structure BRow where
  key : Cell
  issued : Nat
  attended : Nat

/-- The grouped aggregation of the detentions dashboard: for each group
key, Issued counts the non-null Student cells of the group (the count
aggregation) and Attended counts the cells of the attendance column that
equal Present exactly.  ki, si, ai are the indices of the grouping column,
the Student column and the Detention Attendance column. -/
def breakdownRows (t : Table) (ki si ai : Nat) : List BRow :=
  (groupKeys t ki).map (fun k =>
    let grp := t.rows.filter (fun r => cellAt r ki == k)
    { key := k
      issued := (grp.filter (fun r => !(cellAt r si).isNa)).length
      attended := (grp.filter (fun r => exactCell (cellAt r ai))).length })

/-- groupby followed by the named aggregation of the detentions dashboard:
pandas raises KeyError when the grouping column or one of the aggregated
columns is missing. -/
def groupAgg (t : Table) (key : String) : Except String (List BRow) :=
  match idxOf? t.cols key, idxOf? t.cols "Student", idxOf? t.cols "Detention Attendance" with
  | some ki, some si, some ai => Except.ok (breakdownRows t ki si ai)
  | Option.none, _, _ => Except.error ("KeyError: " ++ key)
  | _, _, _ => Except.error "KeyError: aggregation column"

/-- dt.date on a cell: a timestamp is truncated to its calendar date.  The
source applies it to a to_datetime-coerced column, where only missing and
timestamp cells occur; the other cases are kept as they are. -/
def truncCell : Cell → Cell
  | Cell.date d _ => Cell.date d 0
  | c => c

/-- Column assignment on a table: replace the cells of an existing column
of that name, or append a new column at the end (the assign step of the
daily groupings). -/
def setCol (t : Table) (c : String) (vals : List Cell) : Table :=
  match idxOf? t.cols c with
  | some i => { t with rows := (t.rows.zip vals).map (fun p => p.1.set i p.2) }
  | Option.none => { cols := t.cols ++ [c], rows := (t.rows.zip vals).map (fun p => p.1 ++ [p.2]) }

/-- The dropna plus assign stage of the daily detentions grouping: keep the
rows whose Issued Date cell (at index i) is non-null and add a Date column
holding the truncated dates. -/
def dailyTable (t : Table) (i : Nat) : Table :=
  let kept := t.rows.filter (fun r => !(cellAt r i).isNa)
  setCol { t with rows := kept } "Date" (kept.map (fun r => truncCell (cellAt r i)))

/-- The daily monitoring aggregation of the detentions dashboard: drop
null-date rows, truncate to calendar dates, group by date with the same
named aggregation as the year breakdown. -/
def dailyAgg (t : Table) : Except String (List BRow) :=
  match idxOf? t.cols "Issued Date" with
  | some i => groupAgg (dailyTable t i) "Date"
  | Option.none => Except.error "KeyError: Issued Date"

/-- value_counts over the column with index i: each distinct non-null
value with its number of occurrences.  pandas presents these ordered by
descending frequency; no verified property depends on that order and it is
not modelled. -/
def typeCounts (t : Table) (i : Nat) : List (Cell × Nat) :=
  let vals := t.rows.map (fun r => cellAt r i)
  ((vals.filter (fun c => !c.isNa)).dedup).map
    (fun k => (k, (vals.filter (fun v => v == k)).length))

/-- Daily grouping of the on-call dashboard: drop null DateTime rows,
truncate to calendar dates, count the rows of each date (the count
aggregation over DateTime counts every kept row, all being non-null). -/
def oncallDaily (t : Table) (i : Nat) : List (Cell × Nat) :=
  let dates := (t.rows.filter (fun r => !(cellAt r i).isNa)).map (fun r => truncCell (cellAt r i))
  (sortCells (dates.filter (fun c => !c.isNa)).dedup).map
    (fun k => (k, (dates.filter (fun v => v == k)).length))

/-- Series.str.contains with na false: a string cell is tested for the
(case-sensitive) substring, anything else counts as false. -/
def cellContains (c : Cell) (pat : String) : Bool :=
  match c with
  | Cell.str s => strContainsS s pat
  | _ => false

/-- What a dashboard renderer produced: the early empty-data notice, or a
rendered view. -/
inductive Rendered (α : Type) where
  | emptyInfo : Rendered α
  | view : α → Rendered α

/-- Data shown by the on-call dashboard. -/
structure OncallView where
  total : Nat
  resolved : Nat
  unresolvedCount : Nat
  typeBreakdown : Option (List (Cell × Nat))
  daily : Option (List (Cell × Nat))

/-- render_oncall_dashboard: empty tables short-circuit to an info notice;
otherwise the Status column is read unconditionally (KeyError when it is
absent), the resolved and unresolved counts are substring counts over it,
and the two breakdowns are computed only when their columns are present,
with a warning (here: none) otherwise. -/
def renderOncall (t : Table) : Except String (Rendered OncallView) :=
  if t.rows.isEmpty then Except.ok Rendered.emptyInfo else
    match idxOf? t.cols "Status" with
    | Option.none => Except.error "KeyError: Status"
    | some si =>
      Except.ok (Rendered.view
        { total := t.rows.length
          resolved := (t.rows.filter (fun r => cellContains (cellAt r si) "Resolved")).length
          unresolvedCount := (t.rows.filter (fun r => cellContains (cellAt r si) "Unresolved")).length
          typeBreakdown := (idxOf? t.cols "Type").map (fun i => typeCounts t i)
          daily := (idxOf? t.cols "DateTime").map (fun i => oncallDaily t i) })

/-- Data shown by the detentions dashboard. -/
structure DetView where
  summary : DetSummary
  yearBreakdown : Option (List BRow)
  daily : Option (List BRow)

/-- render_detentions_dashboard: empty tables short-circuit to an info
notice; the headline metrics never raise (the attendance column is
guarded), the year breakdown runs only when Year is present and the daily
breakdown only when Issued Date is present (warnings otherwise), but each
of those aggregations raises KeyError when the Student or the attendance
column is missing. -/
def renderDetentions (t : Table) : Except String (Rendered DetView) :=
  if t.rows.isEmpty then Except.ok Rendered.emptyInfo else do
    let yb ← if t.cols.contains "Year" then Except.map some (groupAgg t "Year")
             else Except.ok Option.none
    let dl ← if t.cols.contains "Issued Date" then Except.map some (dailyAgg t)
             else Except.ok Option.none
    Except.ok (Rendered.view { summary := detSummaryOf t, yearBreakdown := yb, daily := dl })

/-- Is the cell a string or missing (the shapes attendance cells take in a
loaded CSV)? -/
def isStrOrNa : Cell → Bool
  | Cell.date _ _ => false
  | _ => true

/-- Is the cell a timestamp? -/
def isDateCell : Cell → Bool
  | Cell.date _ _ => true
  | _ => false

/-- Incidents table with rows but no Status column. -/
def c1OncallTable : Table :=
  { cols := ["Type"], rows := [[Cell.str "Fight"]] }

/-- Detentions table with a Year column but no Student and no attendance
column. -/
def c1DetYearTable : Table :=
  { cols := ["Year"], rows := [[Cell.str "7"]] }

/-- Detentions table with an Issued Date column but no Student and no
attendance column. -/
def c1DetDateTable : Table :=
  { cols := ["Issued Date"], rows := [[Cell.date 20240101 0]] }

/-- Two-row detentions table, one attended. -/
def c2Table : Table :=
  { cols := ["Student", "Detention Attendance"]
    rows := [[Cell.str "A", Cell.str "Present"], [Cell.str "B", Cell.str "Absent"]] }

/-- Detentions table without an attendance column. -/
def c2NoColTable : Table :=
  { cols := ["Student"], rows := [[Cell.str "A"]] }

/-- Two-row detentions table whose second row has a missing Year. -/
def c3DetTable : Table :=
  { cols := ["Year", "Student", "Detention Attendance"]
    rows := [[Cell.str "7", Cell.str "A", Cell.str "Present"],
             [Cell.na, Cell.str "B", Cell.str "Present"]] }

/-- Two-row incidents table whose second row has a missing Type. -/
def c3TypeTable : Table :=
  { cols := ["Type"], rows := [[Cell.str "Fight"], [Cell.na]] }

/-- One-row detentions table whose attendance value is lower-case present. -/
def c4Table : Table :=
  { cols := ["Year", "Student", "Detention Attendance"]
    rows := [[Cell.str "7", Cell.str "A", Cell.str "present"]] }

/-- One-row detentions table with a non-null Issued Date but a missing
Student cell. -/
def c5Table : Table :=
  { cols := ["Issued Date", "Student", "Detention Attendance"]
    rows := [[Cell.date 20240101 0, Cell.na, Cell.na]] }

/-- Incidents table whose Status column name carries surrounding spaces. -/
def c6PadTable : Table :=
  { cols := [" Status "], rows := [[Cell.str "Resolved"]] }

/-- Incidents table with the trimmed Status column name and the same data. -/
def c6TrimTable : Table :=
  { cols := ["Status"], rows := [[Cell.str "Resolved"]] }

/-- Detentions table with a parseable date, an unparseable date and a
missing value in its Issued Date column. -/
def c7Table : Table :=
  { cols := ["Issued Date"]
    rows := [[Cell.str "2024-03-05"], [Cell.str "not a date"], [Cell.na]] }

/-- Detentions table whose Year column name carries surrounding spaces. -/
def c9Table : Table :=
  { cols := [" Year "], rows := [[Cell.str "7"]] }

/-- Detentions table whose column names carry no surrounding whitespace. -/
def c9CleanTable : Table :=
  { cols := ["Year", "Student"], rows := [[Cell.str "7", Cell.str "A"]] }

theorem getD_set_ne {α : Type} (r : List α) (i j : Nat) (a d : α) (h : i ≠ j) :
    (r.set i a).getD j d = r.getD j d := by
  induction r generalizing i j with
  | nil => simp
  | cons x xs ih =>
    cases i with
    | zero =>
      cases j with
      | zero => exact absurd rfl h
      | succ j => simp [List.set, List.getD]
    | succ i =>
      cases j with
      | zero => simp [List.set, List.getD]
      | succ j =>
        have h' : i ≠ j := fun he => h (by simp [he])
        simp only [List.set, List.getD_cons_succ]
        exact ih i j h'

theorem getD_set_self {α : Type} (r : List α) (i : Nat) (a d : α) (h : i < r.length) :
    (r.set i a).getD i d = a := by
  induction r generalizing i with
  | nil => simp at h
  | cons x xs ih =>
    cases i with
    | zero => simp [List.set, List.getD]
    | succ i =>
      simp only [List.set, List.getD_cons_succ]
      exact ih i (Nat.lt_of_succ_lt_succ h)

theorem getD_len_le {α : Type} (r : List α) (i : Nat) (d : α) (h : r.length ≤ i) :
    r.getD i d = d := by
  induction r generalizing i with
  | nil => simp [List.getD]
  | cons x xs ih =>
    cases i with
    | zero => simp at h
    | succ i =>
      simp only [List.getD_cons_succ]
      exact ih i (Nat.le_of_succ_le_succ h)

theorem length_filter_mono {α : Type} {p q : α → Bool} (l : List α)
    (h : ∀ x ∈ l, p x = true → q x = true) :
    (l.filter p).length ≤ (l.filter q).length := by
  induction l with
  | nil => simp
  | cons x xs ih =>
    have ih' := ih (fun y hy => h y (List.mem_cons_of_mem x hy))
    by_cases hp : p x = true
    · have hq := h x (List.mem_cons_self x xs) hp
      simp [List.filter_cons, hp, hq]
      omega
    · have hp' : p x = false := Bool.eq_false_iff.mpr hp
      by_cases hq : q x = true
      · simp [List.filter_cons, hp', hq]
        omega
      · have hq' : q x = false := Bool.eq_false_iff.mpr hq
        simp [List.filter_cons, hp', hq']
        omega

theorem length_filter_map {α β : Type} (g : α → β) (p : β → Bool) (l : List α) :
    ((l.map g).filter p).length = (l.filter (fun x => p (g x))).length := by
  induction l with
  | nil => simp
  | cons x xs ih =>
    by_cases hp : p (g x) = true
    · simp [List.filter_cons, hp, ih]
    · have hp' : p (g x) = false := Bool.eq_false_iff.mpr hp
      simp [List.filter_cons, hp', ih]

theorem dropWhile_idem {α : Type} (p : α → Bool) (l : List α) :
    (l.dropWhile p).dropWhile p = l.dropWhile p := by
  induction l with
  | nil => rfl
  | cons x xs ih =>
    by_cases hp : p x = true
    · simp [List.dropWhile_cons, hp, ih]
    · have hp' : p x = false := Bool.eq_false_iff.mpr hp
      simp [List.dropWhile_cons, hp']

theorem dropWhile_head_false {α : Type} (p : α → Bool) (l : List α) (c : α) (t : List α)
    (h : l.dropWhile p = c :: t) : p c = false := by
  induction l with
  | nil => simp at h
  | cons x xs ih =>
    by_cases hp : p x = true
    · simp [List.dropWhile_cons, hp] at h
      exact ih h
    · have hp' : p x = false := Bool.eq_false_iff.mpr hp
      simp [List.dropWhile_cons, hp'] at h
      exact h.1 ▸ hp'

theorem stripChars_front (l : List Char) :
    (stripChars l).dropWhile isStripWs = stripChars l := by
  unfold stripChars
  cases hc : ((l.dropWhile isStripWs).reverse.dropWhile isStripWs).reverse with
  | nil => rfl
  | cons c t =>
    have hyp : ((l.dropWhile isStripWs).reverse.dropWhile isStripWs).reverse
        <+: l.dropWhile isStripWs := by
      have h1 := List.reverse_prefix.mpr
        (List.dropWhile_suffix (l := (l.dropWhile isStripWs).reverse) isStripWs)
      rwa [List.reverse_reverse] at h1
    rw [hc] at hyp
    obtain ⟨u, hu⟩ := hyp
    have hfc : isStripWs c = false := by
      apply dropWhile_head_false isStripWs l c (t ++ u)
      rw [← hu]
      rfl
    rw [List.dropWhile_cons, hfc]
    simp

theorem stripChars_idem (l : List Char) : stripChars (stripChars l) = stripChars l := by
  show (((stripChars l).dropWhile isStripWs).reverse.dropWhile isStripWs).reverse = stripChars l
  rw [stripChars_front l]
  have h2 : (stripChars l).reverse.dropWhile isStripWs = (stripChars l).reverse := by
    unfold stripChars
    rw [List.reverse_reverse]
    exact dropWhile_idem isStripWs (l.dropWhile isStripWs).reverse
  rw [h2, List.reverse_reverse]

theorem stripStr_idem (s : String) : stripStr (stripStr s) = stripStr s := by
  unfold stripStr
  exact congrArg String.mk (stripChars_idem s.data)

theorem idxOf?_lt_length (l : List String) (c : String) (i : Nat)
    (h : idxOf? l c = some i) : i < l.length := by
  induction l generalizing i with
  | nil => simp [idxOf?] at h
  | cons b bs ih =>
    by_cases hb : b = c
    · simp [idxOf?, hb] at h
      simp [List.length_cons]
      omega
    · simp [idxOf?, hb] at h
      obtain ⟨j, hj, hji⟩ := h
      have := ih j hj
      simp [List.length_cons]
      omega

theorem idxOf?_getD (l : List String) (c : String) (i : Nat) (d : String)
    (h : idxOf? l c = some i) : l.getD i d = c := by
  induction l generalizing i with
  | nil => simp [idxOf?] at h
  | cons b bs ih =>
    by_cases hb : b = c
    · simp [idxOf?, hb] at h
      subst h
      simpa using hb
    · simp [idxOf?, hb] at h
      obtain ⟨j, hj, hji⟩ := h
      subst hji
      simpa using ih j hj

theorem idxOf?_contains (l : List String) (c : String) (i : Nat)
    (h : idxOf? l c = some i) : l.contains c = true := by
  induction l generalizing i with
  | nil => simp [idxOf?] at h
  | cons b bs ih =>
    by_cases hb : b = c
    · simp [hb]
    · simp [idxOf?, hb] at h
      obtain ⟨j, hj, _⟩ := h
      simp [List.contains_cons]
      exact Or.inr (by simpa [List.contains] using ih j hj)

theorem contains_idxOf? (l : List String) (c : String)
    (h : l.contains c = true) : ∃ i, idxOf? l c = some i := by
  induction l with
  | nil => simp at h
  | cons b bs ih =>
    by_cases hb : b = c
    · exact ⟨0, by simp [idxOf?, hb]⟩
    · have hbs : bs.contains c = true := by
        simp [List.contains_cons] at h
        rcases h with h | h
        · exact absurd h.symm hb
        · simpa [List.contains] using h
      obtain ⟨j, hj⟩ := ih hbs
      exact ⟨j + 1, by simp [idxOf?, hb, hj]⟩

theorem idxOf?_none (l : List String) (c : String)
    (h : l.contains c = false) : idxOf? l c = Option.none := by
  cases he : idxOf? l c with
  | none => rfl
  | some i => rw [idxOf?_contains l c i he] at h; cases h

theorem idxOf?_append_left (l₁ l₂ : List String) (c : String) (i : Nat)
    (h : idxOf? l₁ c = some i) : idxOf? (l₁ ++ l₂) c = some i := by
  induction l₁ generalizing i with
  | nil => simp [idxOf?] at h
  | cons b bs ih =>
    by_cases hb : b = c
    · simp [idxOf?, hb] at h ⊢
      exact h
    · simp [idxOf?, hb] at h ⊢
      obtain ⟨j, hj, hji⟩ := h
      exact ⟨j, ih j hj, hji⟩

theorem idxOf?_append_self (l : List String) (c : String)
    (h : l.contains c = false) : idxOf? (l ++ [c]) c = some l.length := by
  induction l with
  | nil => simp [idxOf?]
  | cons b bs ih =>
    have h' : (c == b) = false ∧ bs.contains c = false := by
      simpa [List.contains_cons, Bool.or_eq_false_iff] using h
    have hb : b ≠ c := by
      intro he
      simp [he] at h'
    simp [idxOf?, hb, ih h'.2]

theorem charList_le_total (a b : List Char) :
    decide (a ≤ b) = true ∨ decide (b ≤ a) = true := by
  rcases le_total a b with h | h
  · exact Or.inl (decide_eq_true h)
  · exact Or.inr (decide_eq_true h)

theorem cellLE_total (a b : Cell) : cellLE a b = true ∨ cellLE b a = true := by
  cases a with
  | na => exact Or.inl rfl
  | str sa =>
    cases b with
    | na => exact Or.inr rfl
    | str sb => simpa [cellLE] using charList_le_total sa.data sb.data
    | date d s => exact Or.inl rfl
  | date da sa =>
    cases b with
    | na => exact Or.inr rfl
    | str sb => exact Or.inr rfl
    | date db sb =>
      simp only [cellLE, Bool.or_eq_true, Bool.and_eq_true, decide_eq_true_eq, beq_iff_eq]
      omega

theorem insertCell_perm (a : Cell) (l : List Cell) : (insertCell a l).Perm (a :: l) := by
  induction l with
  | nil => simp [insertCell]
  | cons b t ih =>
    by_cases h : cellLE a b = true
    · simp [insertCell, h]
    · have h' : cellLE a b = false := Bool.eq_false_iff.mpr h
      simp only [insertCell, h']
      exact List.Perm.trans (List.Perm.cons b ih) (List.Perm.swap a b t)

theorem sortCells_perm (l : List Cell) : (sortCells l).Perm l := by
  induction l with
  | nil => simp [sortCells]
  | cons a t ih =>
    exact List.Perm.trans (insertCell_perm a (sortCells t)) (List.Perm.cons a ih)

theorem mem_sortCells {x : Cell} {l : List Cell} : x ∈ sortCells l ↔ x ∈ l :=
  (sortCells_perm l).mem_iff

theorem nodup_sortCells {l : List Cell} (h : l.Nodup) : (sortCells l).Nodup :=
  ((sortCells_perm l).symm).nodup h

theorem sortedB_insertCell (a : Cell) (l : List Cell) (h : sortedB l = true) :
    sortedB (insertCell a l) = true := by
  induction l with
  | nil => rfl
  | cons b t ih =>
    by_cases hab : cellLE a b = true
    · simp only [insertCell, hab, if_true]
      simp [sortedB, hab, h]
    · have hab' : cellLE a b = false := Bool.eq_false_iff.mpr hab
      have hba : cellLE b a = true := by
        rcases cellLE_total a b with hc | hc
        · rw [hc] at hab'; cases hab'
        · exact hc
      simp only [insertCell, hab', if_false]
      have ht : sortedB t = true := by
        cases t with
        | nil => rfl
        | cons c u => exact (Bool.and_eq_true_iff.mp h).2
      have hins := ih ht
      cases hi : insertCell a t with
      | nil => simp [sortedB]
      | cons c u =>
        have hbc : cellLE b c = true := by
          have hmem : c ∈ a :: t := by
            have := (insertCell_perm a t).mem_iff.mp (by rw [hi]; exact List.mem_cons_self c u)
            exact this
          rcases List.mem_cons.mp hmem with hc | hc
          · rw [hc]; exact hba
          · cases t with
            | nil => simp at hc
            | cons e u' =>
              have hbe : cellLE b e = true := (Bool.and_eq_true_iff.mp h).1
              rcases List.mem_cons.mp hc with hce | hcu
              · rw [hce]; exact hbe
              · -- c sits in u', but we only need that the head of insertCell a (e :: u')
                -- is a or e, both of which b precedes
                have hhead : c = a ∨ c = e := by
                  by_cases hae : cellLE a e = true
                  · have : insertCell a (e :: u') = a :: e :: u' := by
                      simp [insertCell, hae]
                    rw [this] at hi
                    exact Or.inl ((List.cons.injEq _ _ _ _).mp hi).1.symm
                  · have hae' : cellLE a e = false := Bool.eq_false_iff.mpr hae
                    have : insertCell a (e :: u') = e :: insertCell a u' := by
                      simp [insertCell, hae']
                    rw [this] at hi
                    exact Or.inr ((List.cons.injEq _ _ _ _).mp hi).1.symm
                rcases hhead with hc' | hc'
                · rw [hc']; exact hba
                · rw [hc']; exact hbe
        rw [hi] at hins
        simp [sortedB, hbc, hins]

theorem sortedB_sortCells (l : List Cell) : sortedB (sortCells l) = true := by
  induction l with
  | nil => rfl
  | cons a t ih => exact sortedB_insertCell a (sortCells t) ih

theorem sum_map_ite_mem (keys : List Cell) (c : Cell) (b : Bool) (hnd : keys.Nodup) :
    (keys.map (fun k => if (c == k && b) = true then 1 else 0)).sum
      = if c ∈ keys ∧ b = true then 1 else 0 := by
  induction keys with
  | nil => simp
  | cons k ks ih =>
    have hnd' : ks.Nodup := (List.nodup_cons.mp hnd).2
    have hk : k ∉ ks := (List.nodup_cons.mp hnd).1
    by_cases hck : c = k
    · subst hck
      have hnotin : c ∉ ks := hk
      have hzero : (ks.map (fun k => if (c == k && b) = true then 1 else 0)).sum = 0 := by
        rw [ih hnd']
        simp [hnotin]
      simp only [List.map_cons, List.sum_cons]
      rw [hzero]
      by_cases hb : b = true
      · simp [hb]
      · have hb' : b = false := Bool.eq_false_iff.mpr hb
        simp [hb']
    · have hne : (c == k) = false := beq_eq_false_iff_ne.mpr hck
      simp only [List.map_cons, List.sum_cons, hne, Bool.false_and, if_neg (by simp : ¬(false = true)),
        Nat.zero_add]
      rw [ih hnd']
      by_cases hmem : c ∈ ks
      · simp [hmem, hck]
      · simp [hmem, hck]

theorem length_filter_cons_eq {α : Type} (x : α) (l : List α) (p : α → Bool) :
    ((x :: l).filter p).length = (if p x = true then 1 else 0) + (l.filter p).length := by
  by_cases hp : p x = true
  · simp [List.filter_cons, hp]
    omega
  · have hp' : p x = false := Bool.eq_false_iff.mpr hp
    simp [List.filter_cons, hp']

theorem sum_groups_eq {α : Type} (f : α → Cell) (P : α → Bool) (l : List α) (keys : List Cell)
    (hnd : keys.Nodup)
    (hmem : ∀ x ∈ l, (f x).isNa = false → f x ∈ keys)
    (hkeys : ∀ k ∈ keys, k.isNa = false) :
    (keys.map (fun k => (l.filter (fun x => f x == k && P x)).length)).sum
      = (l.filter (fun x => !(f x).isNa && P x)).length := by
  induction l with
  | nil => simp
  | cons x xs ih =>
    have ih' := ih (fun y hy => hmem y (List.mem_cons_of_mem x hy))
    have hsplit : ∀ k : Cell,
        ((x :: xs).filter (fun y => f y == k && P y)).length
          = (if (f x == k && P x) = true then 1 else 0)
            + (xs.filter (fun y => f y == k && P y)).length := by
      intro k
      exact length_filter_cons_eq x xs _
    have hmap : (keys.map (fun k => ((x :: xs).filter (fun y => f y == k && P y)).length)
        = keys.map (fun k => (if (f x == k && P x) = true then 1 else 0)
            + (xs.filter (fun y => f y == k && P y)).length)) := by
      exact List.map_congr_left (fun k _ => hsplit k)
    rw [hmap, List.sum_map_add, sum_map_ite_mem keys (f x) (P x) hnd, ih']
    rw [length_filter_cons_eq x xs _]
    have hind : (if f x ∈ keys ∧ P x = true then 1 else 0)
        = if (!(f x).isNa && P x) = true then 1 else 0 := by
      by_cases hP : P x = true
      · by_cases hna : (f x).isNa = true
        · have hnotin : f x ∉ keys := fun hin => by rw [hkeys (f x) hin] at hna; cases hna
          simp [hnotin, hna, hP]
        · have hna' : (f x).isNa = false := Bool.eq_false_iff.mpr hna
          have hin := hmem x (List.mem_cons_self x xs) hna'
          simp [hin, hna', hP]
      · have hP' : P x = false := Bool.eq_false_iff.mpr hP
        simp [hP']
    rw [hind]

theorem groupKeys_nodup (t : Table) (ki : Nat) : (groupKeys t ki).Nodup :=
  nodup_sortCells (List.nodup_dedup _)

theorem mem_groupKeys {t : Table} {ki : Nat} {k : Cell} :
    k ∈ groupKeys t ki ↔ k ∈ keyCells t ki ∧ k.isNa = false := by
  unfold groupKeys
  rw [mem_sortCells, List.mem_dedup, List.mem_filter]
  simp

theorem map_key_mk {l : List Cell} {f g : Cell → Nat} :
    (l.map (fun k => ({ key := k, issued := f k, attended := g k } : BRow))).map BRow.key = l := by
  induction l with
  | nil => rfl
  | cons a t ih => simp only [List.map_cons]; rw [ih]

theorem breakdown_map_key (t : Table) (ki si ai : Nat) :
    (breakdownRows t ki si ai).map BRow.key = groupKeys t ki :=
  map_key_mk

theorem breakdown_keys_sorted (t : Table) (ki si ai : Nat) :
    sortedB ((breakdownRows t ki si ai).map BRow.key) = true := by
  rw [breakdown_map_key]
  exact sortedB_sortCells _

theorem breakdown_keys_nonnull (t : Table) (ki si ai : Nat) :
    ∀ b ∈ breakdownRows t ki si ai, b.key.isNa = false := by
  intro b hb
  unfold breakdownRows at hb
  obtain ⟨k, hk, hbk⟩ := List.mem_map.mp hb
  have : b.key = k := by rw [← hbk]
  rw [this]
  exact (mem_groupKeys.mp hk).2

theorem breakdown_issued_sum (t : Table) (ki si ai : Nat) :
    ((breakdownRows t ki si ai).map BRow.issued).sum
      = (t.rows.filter (fun r => !(cellAt r ki).isNa && !(cellAt r si).isNa)).length := by
  unfold breakdownRows
  rw [List.map_map]
  have hshape : ((groupKeys t ki).map
      (BRow.issued ∘ fun k =>
        { key := k
          issued := ((t.rows.filter (fun r => cellAt r ki == k)).filter
            (fun r => !(cellAt r si).isNa)).length
          attended := ((t.rows.filter (fun r => cellAt r ki == k)).filter
            (fun r => exactCell (cellAt r ai))).length : BRow }))
      = (groupKeys t ki).map (fun k =>
          (t.rows.filter (fun r => cellAt r ki == k && !(cellAt r si).isNa)).length) := by
    apply List.map_congr_left
    intro k _
    simp only [Function.comp]
    rw [List.filter_filter]
    congr 1
    apply List.filter_congr
    intro r _
    rw [Bool.and_comm]
  rw [hshape]
  exact sum_groups_eq (fun r => cellAt r ki) (fun r => !(cellAt r si).isNa) t.rows
    (groupKeys t ki) (groupKeys_nodup t ki)
    (fun r hr hna => mem_groupKeys.mpr ⟨List.mem_map.mpr ⟨r, hr, rfl⟩, hna⟩)
    (fun k hk => (mem_groupKeys.mp hk).2)

theorem breakdown_attended_sum (t : Table) (ki si ai : Nat) :
    ((breakdownRows t ki si ai).map BRow.attended).sum
      = (t.rows.filter (fun r => !(cellAt r ki).isNa && exactCell (cellAt r ai))).length := by
  unfold breakdownRows
  rw [List.map_map]
  have hshape : ((groupKeys t ki).map
      (BRow.attended ∘ fun k =>
        { key := k
          issued := ((t.rows.filter (fun r => cellAt r ki == k)).filter
            (fun r => !(cellAt r si).isNa)).length
          attended := ((t.rows.filter (fun r => cellAt r ki == k)).filter
            (fun r => exactCell (cellAt r ai))).length : BRow }))
      = (groupKeys t ki).map (fun k =>
          (t.rows.filter (fun r => cellAt r ki == k && exactCell (cellAt r ai))).length) := by
    apply List.map_congr_left
    intro k _
    simp only [Function.comp]
    rw [List.filter_filter]
    congr 1
    apply List.filter_congr
    intro r _
    rw [Bool.and_comm]
  rw [hshape]
  exact sum_groups_eq (fun r => cellAt r ki) (fun r => exactCell (cellAt r ai)) t.rows
    (groupKeys t ki) (groupKeys_nodup t ki)
    (fun r hr hna => mem_groupKeys.mpr ⟨List.mem_map.mpr ⟨r, hr, rfl⟩, hna⟩)
    (fun k hk => (mem_groupKeys.mp hk).2)

theorem typeCounts_sum (t : Table) (i : Nat) :
    ((typeCounts t i).map Prod.snd).sum
      = (t.rows.filter (fun r => !(cellAt r i).isNa)).length := by
  unfold typeCounts
  rw [List.map_map]
  have hmap : ((((t.rows.map (fun r => cellAt r i)).filter (fun c => !c.isNa)).dedup).map
      (Prod.snd ∘ fun k => (k, ((t.rows.map (fun r => cellAt r i)).filter (fun v => v == k)).length)))
      = (((t.rows.map (fun r => cellAt r i)).filter (fun c => !c.isNa)).dedup).map
        (fun k => ((t.rows.map (fun r => cellAt r i)).filter
          (fun x => (fun v : Cell => v) x == k && (fun _ : Cell => true) x)).length) := by
    apply List.map_congr_left
    intro k _
    simp only [Function.comp]
    congr 1
    apply List.filter_congr
    intro v _
    simp
  rw [hmap]
  rw [sum_groups_eq (fun v : Cell => v) (fun _ => true)
    (t.rows.map (fun r => cellAt r i))
    (((t.rows.map (fun r => cellAt r i)).filter (fun c => !c.isNa)).dedup)
    (List.nodup_dedup _)
    (fun x hx hna => List.mem_dedup.mpr (List.mem_filter.mpr ⟨hx, by simp [hna]⟩))
    (fun k hk => by
      have hm := List.mem_filter.mp (List.mem_dedup.mp hk)
      simpa using hm.2)]
  rw [length_filter_map]
  congr 1
  apply List.filter_congr
  intro r _
  simp

theorem getD_append_lt {α : Type} (l₁ l₂ : List α) (i : Nat) (d : α) (h : i < l₁.length) :
    (l₁ ++ l₂).getD i d = l₁.getD i d := by
  induction l₁ generalizing i with
  | nil => simp at h
  | cons x xs ih =>
    cases i with
    | zero => rfl
    | succ i =>
      simp only [List.cons_append, List.getD_cons_succ]
      exact ih i (Nat.lt_of_succ_lt_succ h)

theorem getD_concat_len {α : Type} (l : List α) (v d : α) :
    (l ++ [v]).getD l.length d = v := by
  induction l with
  | nil => rfl
  | cons x xs ih => simp only [List.cons_append, List.length_cons, List.getD_cons_succ]; exact ih

theorem zip_map_concat (l : List (List Cell)) (f : List Cell → Cell) :
    ((l.zip (l.map f)).map (fun p => p.1 ++ [p.2])) = l.map (fun r => r ++ [f r]) := by
  induction l with
  | nil => rfl
  | cons x xs ih => simp [List.zip_cons_cons, ih]

theorem startsWithL_append_left (p x y : List Char) (h : p.length ≤ x.length) :
    startsWithL p (x ++ y) = startsWithL p x := by
  induction p generalizing x with
  | nil => rfl
  | cons a p ih =>
    cases x with
    | nil => simp at h
    | cons b t =>
      show (a == b && startsWithL p (t ++ y)) = (a == b && startsWithL p t)
      rw [ih t (Nat.le_of_succ_le_succ (by simpa using h))]

theorem startsWithL_self (p b : List Char) : startsWithL p (p ++ b) = true := by
  induction p with
  | nil => rfl
  | cons a t ih => simp [startsWithL, ih]

theorem afterFirst_eq_none (p h : List Char) (hc : containsSubL p h = false) :
    afterFirst p h = Option.none := by
  induction h with
  | nil => rfl
  | cons c t ih =>
    have hsplit : startsWithL p (c :: t) = false ∧ containsSubL p t = false := by
      simpa [containsSubL, Bool.or_eq_false_iff] using hc
    simp only [afterFirst, hsplit.1, if_neg (by simp : ¬(false = true))]
    exact ih hsplit.2

theorem afterFirst_append (a b : List Char)
    (h : containsSubL sepDChars (a ++ ['/', 'd']) = false) :
    afterFirst sepDChars (a ++ sepDChars ++ b) = some b := by
  induction a with
  | nil =>
    have hs' : startsWithL sepDChars ('/' :: 'd' :: '/' :: b) = true := startsWithL_self sepDChars b
    show afterFirst sepDChars ('/' :: 'd' :: '/' :: b) = some b
    simp only [afterFirst]
    rw [hs']
    simp [sepDChars]
  | cons c a ih =>
    have hsplit : startsWithL sepDChars (c :: (a ++ ['/', 'd'])) = false
        ∧ containsSubL sepDChars (a ++ ['/', 'd']) = false := by
      simpa [containsSubL, Bool.or_eq_false_iff] using h
    have hshape : (c :: a) ++ sepDChars ++ b = (c :: (a ++ ['/', 'd'])) ++ ('/' :: b) := by
      simp [sepDChars]
    have hns : startsWithL sepDChars ((c :: a) ++ sepDChars ++ b) = false := by
      rw [hshape, startsWithL_append_left sepDChars (c :: (a ++ ['/', 'd'])) ('/' :: b)
        (by simp only [sepDChars, List.length_cons, List.length_append]; omega)]
      exact hsplit.1
    have hstep : (c :: a) ++ sepDChars ++ b = c :: (a ++ sepDChars ++ b) := by simp
    rw [hstep] at hns ⊢
    simp only [afterFirst, hns, if_neg (by simp : ¬(false = true))]
    exact ih hsplit.2

theorem looseCell_eq_strLoose (c : Cell) (h : isStrOrNa c = true) :
    looseCell c = strLoose c := by
  cases c with
  | na => decide
  | str s => rfl
  | date d sec => simp [isStrOrNa] at h

theorem loose_of_exact (c : Cell) (h : exactCell c = true) : looseCell c = true := by
  have hc : c = Cell.str "Present" := by simpa [exactCell] using h
  subst hc
  decide

theorem stripColsT_idem (t : Table) : stripColsT (stripColsT t) = stripColsT t := by
  show ({ cols := (t.cols.map stripStr).map stripStr, rows := t.rows } : Table)
      = { cols := t.cols.map stripStr, rows := t.rows }
  rw [List.map_map]
  have hmap : t.cols.map (stripStr ∘ stripStr) = t.cols.map stripStr :=
    List.map_congr_left (fun c _ => stripStr_idem c)
  rw [hmap]

/-- C1: the claim says a missing column never causes a raised error, but the
code raises KeyError: an incidents table without a Status column fails at
the unguarded Status access, and a detentions table with a Year or an
Issued Date column but without a Student or a Detention Attendance column
fails inside the named groupby aggregation. -/
theorem claim1_missing_column_raises :
    renderOncall c1OncallTable = Except.error "KeyError: Status"
    ∧ renderDetentions c1DetYearTable = Except.error "KeyError: aggregation column"
    ∧ renderDetentions c1DetDateTable = Except.error "KeyError: aggregation column" :=
  ⟨rfl, rfl, rfl⟩

/-- C2: for a detentions table with an attendance column of string or
missing cells, the headline attended count equals the number of rows whose
attendance value case-insensitively contains present, the attendance rate
is attended over total with zero for an empty table, and a table without
an attendance column has attended zero. -/
theorem claim2_attended_and_rate :
    (∀ (t : Table) (i N K : Nat),
      idxOf? t.cols "Detention Attendance" = some i →
      (∀ r ∈ t.rows, isStrOrNa (cellAt r i) = true) →
      t.rows.length = N →
      (t.rows.filter (fun r => strLoose (cellAt r i))).length = K →
      (detSummaryOf t).attended = K
        ∧ (detSummaryOf t).rate = if N = 0 then 0 else (K : Rat) / (N : Rat))
    ∧ (∀ t : Table, idxOf? t.cols "Detention Attendance" = Option.none →
        (detSummaryOf t).attended = 0) := by
  constructor
  · intro t i N K hi hcells hN hK
    have hfilter : (t.rows.filter (fun r => looseCell (cellAt r i))).length = K := by
      rw [← hK]
      congr 1
      apply List.filter_congr
      intro r hr
      exact looseCell_eq_strLoose (cellAt r i) (hcells r hr)
    constructor
    · simp only [detSummaryOf, hi]
      exact hfilter
    · simp only [detSummaryOf, hi, hfilter, hN]
  · intro t h
    simp only [detSummaryOf, h]

theorem claim2_witness :
    ((detSummaryOf c2Table).attended = 1
      ∧ (detSummaryOf c2Table).rate = if 2 = 0 then 0 else (1 : Rat) / (2 : Rat))
    ∧ (detSummaryOf c2NoColTable).attended = 0 :=
  ⟨claim2_attended_and_rate.1 c2Table 1 2 1 rfl (by decide) rfl (by decide),
   claim2_attended_and_rate.2 c2NoColTable rfl⟩

/-- C6 counterexample: the claim says both normalizers trim column names,
but prepare_oncall does not: an incidents table whose column is named
Status with surrounding spaces does not normalize like the trimmed one. -/
theorem claim6_counterexample :
    prepareOncallResult c6PadTable ≠ prepareOncallResult c6TrimTable := by
  decide

/-- C6 amended: prepare_detentions trims column names before matching, so
its result is invariant under pre-stripping the column names; prepare_oncall
does not trim, leaving a padded Status column name untouched. -/
theorem claim6_amended :
    (∀ t : Table, prepareDetentionsResult (stripColsT t) = prepareDetentionsResult t)
    ∧ (prepareOncallResult c6PadTable).cols = [" Status "] := by
  constructor
  · intro t
    unfold prepareDetentionsResult detRenamed
    rw [stripColsT_idem]
  · rfl

/-- C9 counterexample: the claim says normalization leaves the input table
unchanged, but prepare_detentions strips the column names of its argument
in place: a table with a padded Year column name is mutated. -/
theorem claim9_counterexample : (prepareDetentionsFull c9Table).2 ≠ c9Table := by
  decide

/-- C9 amended: prepare_oncall leaves its input unchanged; the effect of
prepare_detentions on its input is exactly the in-place strip of the column
names (cell values untouched), so the input is unchanged precisely when no
column name carries surrounding whitespace. -/
theorem claim9_amended :
    (∀ t : Table, (prepareOncallFull t).2 = t)
    ∧ (∀ t : Table, (prepareDetentionsFull t).2 = stripColsT t)
    ∧ (∀ t : Table, (∀ c ∈ t.cols, stripStr c = c) → (prepareDetentionsFull t).2 = t) := by
  refine ⟨fun t => rfl, fun t => rfl, fun t h => ?_⟩
  show stripColsT t = t
  unfold stripColsT
  have hc : t.cols.map stripStr = t.cols := by
    have h1 : t.cols.map stripStr = t.cols.map id := List.map_congr_left (fun c hc => h c hc)
    rw [h1, List.map_id]
  rw [hc]

theorem claim9_witness : (prepareDetentionsFull c9CleanTable).2 = c9CleanTable :=
  claim9_amended.2.2 c9CleanTable (by decide)

/-- C10: main loads a dataset from the uploaded file whenever one is
present, ignoring the link; the link is consulted only when no file is
uploaded, and only a non-empty link loads anything. -/
theorem claim10_file_precedence :
    (∀ f u : String, chooseSource (some f) u = LoadChoice.fromFile f)
    ∧ (∀ u : String, u ≠ "" → chooseSource Option.none u = LoadChoice.fromUrl u)
    ∧ chooseSource Option.none "" = LoadChoice.noSource := by
  refine ⟨fun f u => rfl, fun u hu => ?_, rfl⟩
  simp [chooseSource, hu]

theorem claim10_witness :
    chooseSource Option.none "https://example.test/data.csv"
      = LoadChoice.fromUrl "https://example.test/data.csv" :=
  claim10_file_precedence.2.1 "https://example.test/data.csv" (by decide)

/-- C3 counterexample: the claim says groups include the null category as
its own group so per-group counts sum to the row count; on a two-row
detentions table with one null Year the groupby drops the null row (sum 1,
not 2, and no null key), and a two-row incidents table with one null Type
likewise sums to 1. -/
theorem claim3_counterexample :
    ((breakdownRows c3DetTable 0 1 2).map BRow.issued).sum ≠ c3DetTable.rows.length
    ∧ groupAgg c3DetTable "Year" = Except.ok (breakdownRows c3DetTable 0 1 2)
    ∧ (∀ b ∈ breakdownRows c3DetTable 0 1 2, b.key.isNa = false)
    ∧ ((typeCounts c3TypeTable 0).map Prod.snd).sum ≠ c3TypeTable.rows.length :=
  ⟨by decide, rfl, by decide, by decide⟩

/-- C3 amended: both grouped breakdowns exclude rows with a null category
(pandas groupby and value_counts default dropna): incident type counts sum
to the number of rows with a non-null Type, and the detentions Year
breakdown has only non-null keys with Issued counts summing to the number
of rows with both a non-null Year and a non-null Student. -/
theorem claim3_amended :
    (∀ (t : Table) (i : Nat), idxOf? t.cols "Type" = some i →
      ((typeCounts t i).map Prod.snd).sum
        = (t.rows.filter (fun r => !(cellAt r i).isNa)).length)
    ∧ (∀ (t : Table) (ki si ai : Nat),
        idxOf? t.cols "Year" = some ki →
        idxOf? t.cols "Student" = some si →
        idxOf? t.cols "Detention Attendance" = some ai →
        groupAgg t "Year" = Except.ok (breakdownRows t ki si ai)
          ∧ ((breakdownRows t ki si ai).map BRow.issued).sum
              = (t.rows.filter (fun r => !(cellAt r ki).isNa && !(cellAt r si).isNa)).length
          ∧ (∀ b ∈ breakdownRows t ki si ai, b.key.isNa = false)) := by
  constructor
  · intro t i _
    exact typeCounts_sum t i
  · intro t ki si ai hki hsi hai
    refine ⟨?_, breakdown_issued_sum t ki si ai, breakdown_keys_nonnull t ki si ai⟩
    simp only [groupAgg, hki, hsi, hai]

theorem claim3_witness :
    (((typeCounts c3TypeTable 0).map Prod.snd).sum
        = (c3TypeTable.rows.filter (fun r => !(cellAt r 0).isNa)).length)
    ∧ (groupAgg c3DetTable "Year" = Except.ok (breakdownRows c3DetTable 0 1 2)
        ∧ ((breakdownRows c3DetTable 0 1 2).map BRow.issued).sum
            = (c3DetTable.rows.filter (fun r => !(cellAt r 0).isNa && !(cellAt r 1).isNa)).length
        ∧ (∀ b ∈ breakdownRows c3DetTable 0 1 2, b.key.isNa = false)) :=
  ⟨claim3_amended.1 c3TypeTable 0 rfl, claim3_amended.2 c3DetTable 0 1 2 rfl rfl rfl⟩

/-- C4: the headline attended count uses the loose case-insensitive
substring test while the per-Year breakdown uses exact equality with
Present, so the per-group Attended counts sum to at most the headline
count, and a lower-case present row makes the two disagree. -/
theorem claim4_exact_within_loose :
    (∀ (t : Table) (ki si ai : Nat),
      idxOf? t.cols "Year" = some ki →
      idxOf? t.cols "Student" = some si →
      idxOf? t.cols "Detention Attendance" = some ai →
      ((breakdownRows t ki si ai).map BRow.attended).sum ≤ (detSummaryOf t).attended)
    ∧ ((breakdownRows c4Table 0 1 2).map BRow.attended).sum
        ≠ (detSummaryOf c4Table).attended := by
  constructor
  · intro t ki si ai hki hsi hai
    rw [breakdown_attended_sum]
    simp only [detSummaryOf, hai]
    apply length_filter_mono
    intro r _ hp
    exact loose_of_exact _ (Bool.and_eq_true_iff.mp hp).2
  · decide

theorem claim4_witness :
    ((breakdownRows c4Table 0 1 2).map BRow.attended).sum
      ≤ (detSummaryOf c4Table).attended :=
  claim4_exact_within_loose.1 c4Table 0 1 2 rfl rfl rfl

/-- C5 counterexample: the claim says the per-day counts sum to the number
of rows with a non-null date, but the Issued aggregation counts non-null
Student cells: a one-row table with a date but a missing Student yields a
day breakdown summing to 0, not 1. -/
theorem claim5_counterexample :
    ((breakdownRows (dailyTable c5Table 0) 3 1 2).map BRow.issued).sum
        ≠ (c5Table.rows.filter (fun r => !(cellAt r 0).isNa)).length
    ∧ dailyAgg c5Table = Except.ok (breakdownRows (dailyTable c5Table 0) 3 1 2) :=
  ⟨by decide, rfl⟩

/-- C5 amended: the daily detentions breakdown is built only from rows
with a non-null Issued Date, its keys are truncated dates of such rows in
ascending order, and the per-day Issued counts sum to the number of rows
with both a non-null Issued Date and a non-null Student. -/
theorem claim5_amended :
    ∀ (t : Table) (di si ai : Nat),
      idxOf? t.cols "Issued Date" = some di →
      idxOf? t.cols "Student" = some si →
      idxOf? t.cols "Detention Attendance" = some ai →
      t.cols.contains "Date" = false →
      (∀ r ∈ t.rows, r.length = t.cols.length) →
      (∀ r ∈ t.rows, ((cellAt r di).isNa || isDateCell (cellAt r di)) = true) →
      ∃ bs, dailyAgg t = Except.ok bs
        ∧ sortedB (bs.map BRow.key) = true
        ∧ (bs.map BRow.issued).sum
            = (t.rows.filter (fun r => !(cellAt r di).isNa && !(cellAt r si).isNa)).length
        ∧ (∀ b ∈ bs, ∃ r, r ∈ t.rows ∧ (cellAt r di).isNa = false
            ∧ b.key = truncCell (cellAt r di)) := by
  intro t di si ai hdi hsi hai hnodate hrect hdates
  have hT : dailyTable t di
      = { cols := t.cols ++ ["Date"]
          rows := (t.rows.filter (fun r => !(cellAt r di).isNa)).map
            (fun r => r ++ [truncCell (cellAt r di)]) } := by
    unfold dailyTable setCol
    simp only [idxOf?_none t.cols "Date" hnodate, zip_map_concat]
  -- facts about the rows that survive the date dropna
  have hkeptfacts : ∀ r ∈ t.rows.filter (fun r => !(cellAt r di).isNa),
      r ∈ t.rows ∧ (cellAt r di).isNa = false
        ∧ cellAt (r ++ [truncCell (cellAt r di)]) (t.cols.length) = truncCell (cellAt r di)
        ∧ (truncCell (cellAt r di)).isNa = false
        ∧ cellAt (r ++ [truncCell (cellAt r di)]) si = cellAt r si := by
    intro r hr
    have hmem := List.mem_filter.mp hr
    have hna : (cellAt r di).isNa = false := by
      have := hmem.2
      simpa using this
    refine ⟨hmem.1, hna, ?_, ?_, ?_⟩
    · show (r ++ [truncCell (cellAt r di)]).getD t.cols.length Cell.na = truncCell (cellAt r di)
      rw [← hrect r hmem.1]
      exact getD_concat_len r _ Cell.na
    · have hdate : isDateCell (cellAt r di) = true := by
        have hd := hdates r hmem.1
        rcases Bool.or_eq_true_iff.mp hd with h | h
        · rw [hna] at h; cases h
        · exact h
      cases hc : cellAt r di with
      | na => rw [hc] at hna; cases hna
      | str s => rw [hc] at hdate; cases hdate
      | date d sec => rfl
    · show (r ++ [truncCell (cellAt r di)]).getD si Cell.na = r.getD si Cell.na
      apply getD_append_lt
      rw [hrect r hmem.1]
      exact idxOf?_lt_length t.cols "Student" si hsi
  have hDate : idxOf? (t.cols ++ ["Date"]) "Date" = some t.cols.length :=
    idxOf?_append_self t.cols "Date" hnodate
  have hSi : idxOf? (t.cols ++ ["Date"]) "Student" = some si :=
    idxOf?_append_left t.cols ["Date"] "Student" si hsi
  have hAi : idxOf? (t.cols ++ ["Date"]) "Detention Attendance" = some ai :=
    idxOf?_append_left t.cols ["Date"] "Detention Attendance" ai hai
  refine ⟨breakdownRows (dailyTable t di) t.cols.length si ai, ?_, ?_, ?_, ?_⟩
  · unfold dailyAgg
    rw [hdi]
    show groupAgg (dailyTable t di) "Date"
        = Except.ok (breakdownRows (dailyTable t di) t.cols.length si ai)
    unfold groupAgg
    rw [hT]
    simp only [hDate, hSi, hAi]
  · exact breakdown_keys_sorted (dailyTable t di) t.cols.length si ai
  · rw [breakdown_issued_sum]
    rw [hT]
    show (((t.rows.filter (fun r => !(cellAt r di).isNa)).map
        (fun r => r ++ [truncCell (cellAt r di)])).filter
          (fun r => !(cellAt r t.cols.length).isNa && !(cellAt r si).isNa)).length
      = (t.rows.filter (fun r => !(cellAt r di).isNa && !(cellAt r si).isNa)).length
    rw [length_filter_map]
    have hcong : (t.rows.filter (fun r => !(cellAt r di).isNa)).filter
        (fun r => !(cellAt (r ++ [truncCell (cellAt r di)]) t.cols.length).isNa
          && !(cellAt (r ++ [truncCell (cellAt r di)]) si).isNa)
        = (t.rows.filter (fun r => !(cellAt r di).isNa)).filter
          (fun r => !(cellAt r si).isNa) := by
      apply List.filter_congr
      intro r hr
      obtain ⟨_, _, hd, hdna, hs⟩ := hkeptfacts r hr
      rw [hd, hs, hdna]
      simp
    rw [hcong, List.filter_filter]
    congr 1
    apply List.filter_congr
    intro r _
    rw [Bool.and_comm]
  · intro b hb
    have hkmem : b.key ∈ (breakdownRows (dailyTable t di) t.cols.length si ai).map BRow.key :=
      List.mem_map_of_mem BRow.key hb
    rw [breakdown_map_key] at hkmem
    have hkc := mem_groupKeys.mp hkmem
    have hkey : b.key ∈ keyCells (dailyTable t di) t.cols.length := hkc.1
    unfold keyCells at hkey
    rw [hT] at hkey
    simp only [List.map_map, List.mem_map] at hkey
    obtain ⟨r, hr, hrk⟩ := hkey
    obtain ⟨hrt, hna, hd, _, _⟩ := hkeptfacts r hr
    refine ⟨r, hrt, hna, ?_⟩
    rw [← hrk]
    simp only [Function.comp]
    exact hd

theorem claim5_witness :
    ∃ bs, dailyAgg c5Table = Except.ok bs
      ∧ sortedB (bs.map BRow.key) = true
      ∧ (bs.map BRow.issued).sum
          = (c5Table.rows.filter (fun r => !(cellAt r 0).isNa && !(cellAt r 1).isNa)).length
      ∧ (∀ b ∈ bs, ∃ r, r ∈ c5Table.rows ∧ (cellAt r 0).isNa = false
          ∧ b.key = truncCell (cellAt r 0)) :=
  claim5_amended c5Table 0 1 2 rfl rfl rfl rfl (by decide) (by decide)

theorem mapColCells_cols (t : Table) (c : String) (f : Cell → Cell) :
    (mapColCells t c f).cols = t.cols := by
  unfold mapColCells
  cases idxOf? t.cols c <;> rfl

theorem mapColCells_rows (t : Table) (c : String) (i : Nat)
    (h : idxOf? t.cols c = some i) :
    (mapColCells t c dateCoerce).rows
      = t.rows.map (fun r => r.set i (dateCoerce (cellAt r i))) := by
  unfold mapColCells
  rw [h]

theorem cellAt_set_same (r : List Cell) (i : Nat) :
    cellAt (r.set i (dateCoerce (cellAt r i))) i = dateCoerce (cellAt r i) := by
  by_cases h : i < r.length
  · exact getD_set_self r i _ _ h
  · have hle : r.length ≤ i := Nat.le_of_not_lt h
    rw [List.set_eq_of_length_le hle]
    show r.getD i Cell.na = dateCoerce (r.getD i Cell.na)
    rw [getD_len_le r i Cell.na hle]
    rfl

theorem cellAt_set_ne (r : List Cell) (i j : Nat) (v : Cell) (h : i ≠ j) :
    cellAt (r.set i v) j = cellAt r j :=
  getD_set_ne r i j v Cell.na h

theorem idxOf?_ne_of_names (l : List String) (a b : String) (i j : Nat)
    (hi : idxOf? l a = some i) (hj : idxOf? l b = some j) (hab : a ≠ b) : i ≠ j := by
  intro he
  subst he
  have h1 := idxOf?_getD l a i "" hi
  have h2 := idxOf?_getD l b i "" hj
  rw [h1] at h2
  exact hab h2

theorem forall₂_cellAt_map (l : List (List Cell)) (f : List Cell → List Cell) (i : Nat)
    (h : ∀ r ∈ l, cellAt (f r) i = dateCoerce (cellAt r i)) :
    List.Forall₂ (fun r r' => cellAt r' i = dateCoerce (cellAt r i)) l (l.map f) := by
  rw [List.forall₂_map_right_iff]
  exact List.forall₂_same.mpr h

/-- C7: to_datetime coercion of the date columns is total and lenient: a
coerced cell is null or a timestamp, missing input stays null, an
unparseable string becomes null, a parseable one becomes its timestamp;
and both normalizers apply exactly this coercion cell-wise to their date
columns (Issued Date and Detention Date for detentions, DateTime for
incidents), leaving the row count and all other data intact. -/
theorem claim7_date_coercion :
    (∀ c : Cell, (dateCoerce c).isNa = true ∨ ∃ d s, dateCoerce c = Cell.date d s)
    ∧ (dateCoerce Cell.na = Cell.na)
    ∧ (∀ s : String, parseDate s = Option.none → dateCoerce (Cell.str s) = Cell.na)
    ∧ (∀ (s : String) (d sec : Nat), parseDate s = some (d, sec) →
        dateCoerce (Cell.str s) = Cell.date d sec)
    ∧ (∀ (t : Table) (c : String) (i : Nat),
        (c = "Issued Date" ∨ c = "Detention Date") →
        idxOf? (detRenamed t).cols c = some i →
        List.Forall₂ (fun r r' => cellAt r' i = dateCoerce (cellAt r i))
          (detRenamed t).rows (prepareDetentionsResult t).rows)
    ∧ (∀ (t : Table) (i : Nat),
        idxOf? (oncallRenamed t).cols "DateTime" = some i →
        List.Forall₂ (fun r r' => cellAt r' i = dateCoerce (cellAt r i))
          (oncallRenamed t).rows (prepareOncallResult t).rows) := by
  refine ⟨?_, rfl, ?_, ?_, ?_, ?_⟩
  · intro c
    cases c with
    | na => exact Or.inl rfl
    | str s =>
      cases hp : parseDate s with
      | none => exact Or.inl (by simp [dateCoerce, hp, Cell.isNa])
      | some p => exact Or.inr ⟨p.1, p.2, by simp [dateCoerce, hp]⟩
    | date d s => exact Or.inr ⟨d, s, rfl⟩
  · intro s hp
    simp [dateCoerce, hp]
  · intro s d sec hp
    simp [dateCoerce, hp]
  · intro t c i hc hidx
    rcases hc with hc | hc <;> subst hc
    · -- the hypothesis names the Issued Date column
      have hcA : (detRenamed t).cols.contains "Issued Date" = true :=
        idxOf?_contains _ _ _ hidx
      by_cases hB : (detRenamed t).cols.contains "Detention Date" = true
      · obtain ⟨j, hj⟩ := contains_idxOf? _ _ hB
        have hij : i ≠ j := idxOf?_ne_of_names _ _ _ _ _ hidx hj (by decide)
        have hj' : idxOf? (mapColCells (detRenamed t) "Issued Date" dateCoerce).cols
            "Detention Date" = some j := by
          rw [mapColCells_cols]
          exact hj
        have hmA : "Issued Date" ∈ (detRenamed t).cols := by simpa using hcA
        have hmB : "Detention Date" ∈ (detRenamed t).cols := by simpa using hB
        have hres : prepareDetentionsResult t
            = mapColCells (mapColCells (detRenamed t) "Issued Date" dateCoerce)
                "Detention Date" dateCoerce := by
          simp [prepareDetentionsResult, parseDateCols, hmA, hmB, mapColCells_cols]
        rw [hres, mapColCells_rows _ _ _ hj', mapColCells_rows _ _ _ hidx, List.map_map]
        apply forall₂_cellAt_map
        intro r _
        have h1 : cellAt ((r.set i (dateCoerce (cellAt r i))).set j
            (dateCoerce (cellAt (r.set i (dateCoerce (cellAt r i))) j))) i
            = cellAt (r.set i (dateCoerce (cellAt r i))) i :=
          cellAt_set_ne _ j i _ (Ne.symm hij)
        rw [Function.comp_apply, h1, cellAt_set_same]
      · have hmA : "Issued Date" ∈ (detRenamed t).cols := by simpa using hcA
        have hmB : "Detention Date" ∉ (detRenamed t).cols := by simpa using hB
        have hres : prepareDetentionsResult t
            = mapColCells (detRenamed t) "Issued Date" dateCoerce := by
          simp [prepareDetentionsResult, parseDateCols, hmA, hmB, mapColCells_cols]
        rw [hres, mapColCells_rows _ _ _ hidx]
        apply forall₂_cellAt_map
        intro r _
        exact cellAt_set_same r i
    · -- the hypothesis names the Detention Date column
      have hcB : (detRenamed t).cols.contains "Detention Date" = true :=
        idxOf?_contains _ _ _ hidx
      by_cases hA : (detRenamed t).cols.contains "Issued Date" = true
      · obtain ⟨j, hj⟩ := contains_idxOf? _ _ hA
        have hji : j ≠ i := idxOf?_ne_of_names _ _ _ _ _ hj hidx (by decide)
        have hidx' : idxOf? (mapColCells (detRenamed t) "Issued Date" dateCoerce).cols
            "Detention Date" = some i := by
          rw [mapColCells_cols]
          exact hidx
        have hmA : "Issued Date" ∈ (detRenamed t).cols := by simpa using hA
        have hmB : "Detention Date" ∈ (detRenamed t).cols := by simpa using hcB
        have hres : prepareDetentionsResult t
            = mapColCells (mapColCells (detRenamed t) "Issued Date" dateCoerce)
                "Detention Date" dateCoerce := by
          simp [prepareDetentionsResult, parseDateCols, hmA, hmB, mapColCells_cols]
        rw [hres, mapColCells_rows _ _ _ hidx', mapColCells_rows _ _ _ hj, List.map_map]
        apply forall₂_cellAt_map
        intro r _
        have h1 : cellAt (r.set j (dateCoerce (cellAt r j))) i = cellAt r i :=
          cellAt_set_ne _ j i _ hji
        rw [Function.comp_apply, cellAt_set_same, h1]
      · have hmA : "Issued Date" ∉ (detRenamed t).cols := by simpa using hA
        have hmB : "Detention Date" ∈ (detRenamed t).cols := by simpa using hcB
        have hres : prepareDetentionsResult t
            = mapColCells (detRenamed t) "Detention Date" dateCoerce := by
          simp [prepareDetentionsResult, parseDateCols, hmA, hmB, mapColCells_cols]
        rw [hres, mapColCells_rows _ _ _ hidx]
        apply forall₂_cellAt_map
        intro r _
        exact cellAt_set_same r i
  · intro t i hidx
    have hc : (oncallRenamed t).cols.contains "DateTime" = true :=
      idxOf?_contains _ _ _ hidx
    have hm : "DateTime" ∈ (oncallRenamed t).cols := by simpa using hc
    have hres : prepareOncallResult t = mapColCells (oncallRenamed t) "DateTime" dateCoerce := by
      simp [prepareOncallResult, parseDateCols, hm]
    rw [hres, mapColCells_rows _ _ _ hidx]
    apply forall₂_cellAt_map
    intro r _
    exact cellAt_set_same r i

theorem claim7_witness :
    (dateCoerce (Cell.str "not a date") = Cell.na)
    ∧ (dateCoerce (Cell.str "2024-03-05") = Cell.date 20240305 0)
    ∧ List.Forall₂ (fun r r' => cellAt r' 0 = dateCoerce (cellAt r 0))
        (detRenamed c7Table).rows (prepareDetentionsResult c7Table).rows :=
  ⟨claim7_date_coercion.2.2.1 "not a date" (by decide),
   claim7_date_coercion.2.2.2.1 "2024-03-05" 20240305 0 (by decide),
   claim7_date_coercion.2.2.2.2.1 c7Table "Issued Date" 0 (Or.inl rfl) (by decide)⟩

/-- C8: a Google Sheets edit URL is rewritten to the CSV export endpoint
for the document id sitting between the first /d/ and the next slash (the
example URL from the spec rewrites exactly as stated), and when no /d/
occurs the split raises the swallowed IndexError and the URL is kept
unchanged. -/
theorem claim8_google_url :
    (loadUrlTarget "https://docs.google.com/spreadsheets/d/ABC123/edit#gid=0"
        = "https://docs.google.com/spreadsheets/d/ABC123/export?format=csv")
    ∧ (∀ a b : List Char,
        strContainsS (String.mk (a ++ sepDChars ++ b)) "docs.google.com" = true →
        strContainsS (String.mk (a ++ sepDChars ++ b)) "/edit" = true →
        containsSubL sepDChars (a ++ ['/', 'd']) = false →
        rewriteGoogle (String.mk (a ++ sepDChars ++ b))
          = "https://docs.google.com/spreadsheets/d/"
              ++ String.mk (b.takeWhile (fun c => c != '/'))
              ++ "/export?format=csv")
    ∧ (∀ url : String, strContainsS url "/d/" = false → rewriteGoogle url = url) := by
  refine ⟨by decide, ?_, ?_⟩
  · intro a b h1 h2 h3
    unfold rewriteGoogle
    rw [h1, h2]
    have hext : afterFirst sepDChars (String.mk (a ++ sepDChars ++ b)).data = some b := by
      show afterFirst sepDChars (a ++ sepDChars ++ b) = some b
      exact afterFirst_append a b h3
    rw [hext]
    simp
  · intro url h
    unfold rewriteGoogle
    have hnone : afterFirst sepDChars url.data = Option.none := afterFirst_eq_none _ _ h
    rw [hnone]
    by_cases hg : (strContainsS url "docs.google.com" && strContainsS url "/edit") = true
    · simp [hg]
    · simp [Bool.eq_false_iff.mpr hg]

theorem claim8_witness :
    (rewriteGoogle (String.mk ("https://docs.google.com/spreadsheets".data
        ++ sepDChars ++ "ABC123/edit".data))
      = "https://docs.google.com/spreadsheets/d/"
          ++ String.mk ("ABC123/edit".data.takeWhile (fun c => c != '/'))
          ++ "/export?format=csv")
    ∧ rewriteGoogle "https://docs.google.com/page/edit" = "https://docs.google.com/page/edit" :=
  ⟨claim8_google_url.2.1 "https://docs.google.com/spreadsheets".data "ABC123/edit".data
      (by decide) (by decide) (by decide),
   claim8_google_url.2.2 "https://docs.google.com/page/edit" (by decide)⟩
